import Mathlib

set_option maxHeartbeats 1000000

/- Formal model of the per-user virtual filesystem layer of the multi-tenant
file-hosting service, translated from the TypeScript source (`fileStorage`
module and its route-handler call sites).  Paths handed to the filesystem
layer are modelled as lists of path segments; the string-level path
resolution pipeline (`resolvePath`) is modelled over JavaScript string
semantics, with Node's `path.join` / `path.relative` given their documented
POSIX segment semantics.  Filesystem state is a finite tree of named nodes;
per-node `statOk` flags model `stat` calls that fail (permission errors,
races) while the surrounding `readdir` succeeded, and `mtime` models the
stat modification timestamp. -/

/-- Storage root used by the service: `const STORAGE_DIR = "./uploads"`. -/
def STORAGE_DIR : String := "./uploads"

/-- Per-user storage ceiling in bytes: `MAX_USER_STORAGE = 10 * 1024 * 1024`. -/
def MAX_USER_STORAGE : Nat := 10 * 1024 * 1024

/-- Per-request file size limit used by the upload and update handlers:
`const MAX_SIZE = 10 * 1024 * 1024`. -/
def MAX_SIZE : Nat := 10 * 1024 * 1024

/-- Number of bytes a character occupies in UTF-8 (JavaScript
`Buffer.byteLength` counts UTF-8 bytes). -/
def charUtf8Size (c : Char) : Nat :=
  let n := c.toNat
  if n < 128 then 1 else if n < 2048 then 2 else if n < 65536 then 3 else 4

/-- UTF-8 byte length of a string, as computed by `Buffer.byteLength`. -/
def strByteLength (s : String) : Nat :=
  s.data.foldl (fun acc c => acc + charUtf8Size c) 0

/-- UTF-8 encoding of a single character as a list of byte values. -/
def utf8EncodeCharNat (c : Char) : List Nat :=
  let n := c.toNat
  if n < 128 then [n]
  else if n < 2048 then [192 + n / 64, 128 + n % 64]
  else if n < 65536 then [224 + n / 4096, 128 + n / 64 % 64, 128 + n % 64]
  else [240 + n / 262144, 128 + n / 4096 % 64, 128 + n / 64 % 64, 128 + n % 64]

/-- Value of a hexadecimal digit character, or `none`. -/
def hexDigit (c : Char) : Option Nat :=
  if '0' ≤ c ∧ c ≤ '9' then some (c.toNat - 48)
  else if 'A' ≤ c ∧ c ≤ 'F' then some (c.toNat - 55)
  else if 'a' ≤ c ∧ c ≤ 'f' then some (c.toNat - 87)
  else none

/-- Percent-decoding pass of `decodeURIComponent`: every `%XX` hex escape
becomes the byte `XX`, every literal character contributes its UTF-8 bytes;
a `%` not followed by two hex digits is a `URIError` (`none`). -/
def percentBytes : List Char → Option (List Nat)
  | [] => some []
  | '%' :: c1 :: c2 :: rest =>
    match hexDigit c1, hexDigit c2 with
    | some h, some l => (percentBytes rest).map (fun bs => (16 * h + l) :: bs)
    | _, _ => none
  | '%' :: _ => none
  | c :: rest => (percentBytes rest).map (fun bs => utf8EncodeCharNat c ++ bs)

/-- Whether a byte value is a UTF-8 continuation byte. -/
def isContByte (b : Nat) : Bool := 128 ≤ b ∧ b < 192

/-- Strict UTF-8 decoding of a byte sequence (rejecting overlong forms,
surrogates and out-of-range code points, as `decodeURIComponent` does). -/
def utf8DecodeBytes : List Nat → Option (List Char)
  | [] => some []
  | b :: rest =>
    if b < 128 then (utf8DecodeBytes rest).map (fun cs => Char.ofNat b :: cs)
    else if b < 192 then none
    else if b < 224 then
      match rest with
      | b1 :: rest1 =>
        if isContByte b1 then
          let n := (b - 192) * 64 + (b1 - 128)
          if 128 ≤ n then (utf8DecodeBytes rest1).map (fun cs => Char.ofNat n :: cs)
          else none
        else none
      | [] => none
    else if b < 240 then
      match rest with
      | b1 :: b2 :: rest2 =>
        if isContByte b1 ∧ isContByte b2 then
          let n := (b - 224) * 4096 + (b1 - 128) * 64 + (b2 - 128)
          if 2048 ≤ n ∧ (n < 55296 ∨ 57344 ≤ n) then
            (utf8DecodeBytes rest2).map (fun cs => Char.ofNat n :: cs)
          else none
        else none
      | _ => none
    else if b < 248 then
      match rest with
      | b1 :: b2 :: b3 :: rest3 =>
        if isContByte b1 ∧ isContByte b2 ∧ isContByte b3 then
          let n := (b - 240) * 262144 + (b1 - 128) * 4096 + (b2 - 128) * 64 + (b3 - 128)
          if 65536 ≤ n ∧ n < 1114112 then
            (utf8DecodeBytes rest3).map (fun cs => Char.ofNat n :: cs)
          else none
        else none
      | _ => none
    else none

/-- JavaScript `decodeURIComponent`: percent-decode to bytes, then decode the
bytes as UTF-8; malformed input raises `URIError` (modelled as `none`). -/
def decodeURIComponent (s : String) : Option String :=
  (percentBytes s.data).bind fun bs =>
    (utf8DecodeBytes bs).map fun cs => String.mk cs

/-- JavaScript `String.prototype.startsWith`: character-prefix test. -/
def strStartsWith (s p : String) : Bool := p.data.isPrefixOf s.data

/-- Contiguous-subsequence test on character lists. -/
def listContainsSeq (p : List Char) : List Char → Bool
  | [] => p.isPrefixOf []
  | c :: tl => p.isPrefixOf (c :: tl) || listContainsSeq p tl

/-- JavaScript `String.prototype.includes`: substring test. -/
def strContains (s p : String) : Bool := listContainsSeq p.data s.data

/-- Replace every backslash by a forward slash:
`.replace(/\\/g, "/")` in `resolvePath`. -/
def toForwardSlashes (s : String) : String :=
  String.mk (s.data.map (fun c => if c = '\\' then '/' else c))

/-- Auxiliary state machine collapsing runs of slashes (the flag records
whether the previously emitted character was a slash). -/
def collapseAux : Bool → List Char → List Char
  | _, [] => []
  | prev, c :: tl =>
    if c = '/' then
      if prev then collapseAux true tl else '/' :: collapseAux true tl
    else c :: collapseAux false tl

/-- Collapse runs of consecutive slashes: `.replace(/\/+/g, "/")`. -/
def collapseDupSlashes (s : String) : String := String.mk (collapseAux false s.data)

/-- Strip a single leading slash: `.replace(/^\//, "")`. -/
def stripLeadingSlash (s : String) : String :=
  match s.data with
  | '/' :: tl => String.mk tl
  | _ => s

/-- Split a character list at a separator character, accumulating the
current segment in reverse; mirrors `String.prototype.split` with a
single-character separator. -/
def splitCharAux (sep : Char) : List Char → List Char → List String
  | [], acc => [String.mk acc.reverse]
  | c :: tl, acc =>
    if c = sep then String.mk acc.reverse :: splitCharAux sep tl []
    else splitCharAux sep tl (c :: acc)

/-- JavaScript `s.split(sep)` for a one-character separator. -/
def splitChar (sep : Char) (s : String) : List String := splitCharAux sep s.data []

/-- Split a path string into raw segments at slashes. -/
def segsOf (s : String) : List String := splitChar '/' s

/-- One step of Node's path normalization over segments: empty segments and
`.` are dropped; `..` pops the previous segment, or (when nothing poppable
remains and the path is relative, `allowAboveRoot`) is kept. -/
def normStep (allowAboveRoot : Bool) (acc : List String) (seg : String) : List String :=
  if seg = "" ∨ seg = "." then acc
  else if seg = ".." then
    match acc.getLast? with
    | some l => if l = ".." then acc ++ [".."] else acc.dropLast
    | none => if allowAboveRoot then [".."] else []
  else acc ++ [seg]

/-- Node path normalization over a segment list. -/
def normalizeSegs (allowAboveRoot : Bool) (segs : List String) : List String :=
  segs.foldl (normStep allowAboveRoot) []

/-- Join normalized segments back into a path string (empty list is the
empty string; callers that need Node's `"."` convention wrap this). -/
def joinSegs0 : List String → String
  | [] => ""
  | [s] => s
  | s :: s' :: tl => s ++ "/" ++ joinSegs0 (s' :: tl)

/-- Node (POSIX) `path.join(a, b)`: concatenate and normalize, keeping
leading `..` segments; an empty result is `"."`. -/
def jsJoin (a b : String) : String :=
  match normalizeSegs true (segsOf a ++ segsOf b) with
  | [] => "."
  | s :: tl => joinSegs0 (s :: tl)

/-- Node `path.resolve(p)` against a current working directory: absolute
paths stand alone, relative paths are resolved under `cwd`; the result is
the normalized absolute segment list. -/
def resolveParts (cwd p : String) : List String :=
  if strStartsWith p "/" then normalizeSegs false (segsOf p)
  else normalizeSegs false (segsOf cwd ++ segsOf p)

/-- Length of the longest common prefix of two segment lists. -/
def commonPrefixLen : List String → List String → Nat
  | a :: as, b :: bs => if a = b then commonPrefixLen as bs + 1 else 0
  | _, _ => 0

/-- Node (POSIX) `path.relative(src, dst)` against a working directory:
resolve both, then climb out of the non-shared part of `src` with `..`
segments and descend into the non-shared part of `dst`. -/
def jsRelative (cwd src dst : String) : String :=
  let f := resolveParts cwd src
  let t := resolveParts cwd dst
  let c := commonPrefixLen f t
  joinSegs0 (List.replicate (f.length - c) ".." ++ t.drop c)

/-- Error outcomes of `resolvePath`: a malformed percent-encoding
(`URIError` from `decodeURIComponent`) or the sandbox-escape rejection
(`throw new Error("잘못된 경로 접근입니다")`). -/
inductive ResolveError where
  | uriError
  | invalidPath
deriving DecidableEq

/-- The service's `resolvePath(userId, subPath)`: URL-decode, convert
backslashes, collapse duplicate slashes, strip one leading slash, join the
result under the user's directory `join(STORAGE_DIR, userId)`, and reject
when the path relative to the user directory starts with `".."` or contains
`"../"`.  The model is parametrized by the process working directory `cwd`
used by Node's `path.relative`; the directory-creation side effect of
`ensureUserDirectory` does not influence the returned path and is omitted. -/
def resolvePath (cwd userId subPath : String) : Except ResolveError String :=
  match decodeURIComponent subPath with
  | none => Except.error ResolveError.uriError
  | some decoded =>
    let normalizedPath := stripLeadingSlash (collapseDupSlashes (toForwardSlashes decoded))
    let userDir := jsJoin STORAGE_DIR userId
    let fullPath := jsJoin userDir normalizedPath
    let relativePath := jsRelative cwd userDir fullPath
    if strStartsWith relativePath ".." || strContains relativePath "../" then
      Except.error ResolveError.invalidPath
    else
      Except.ok fullPath

/-- Stat metadata attached to a node of the modelled filesystem.  `statOk`
records whether a `stat` call on the node succeeds (false models permission
errors or races on an entry whose parent `readdir` still listed it);
`mtime` is the modification timestamp; `dirStatSize` is the platform value
`stat(...).size` reports for a directory. -/
structure Meta where
  statOk : Bool
  mtime : Nat
  dirStatSize : Nat
deriving DecidableEq

/-- Metadata of a freshly written node: stat works, timestamp and directory
stat size are left at zero (their values never influence the claims). -/
def Meta.fresh : Meta := ⟨true, 0, 0⟩

/-- Content of a file as it was written: a UTF-8 text write
(`writeFile(path, content, "utf-8")`) or a binary write (`Bun.write` /
`write(path, bytes)`), whose bytes are modelled as naturals below 256. -/
inductive FileData where
  | str (s : String)
  | bin (b : List Nat)
deriving DecidableEq

/-- Byte size the filesystem reports for the content (`stat(...).size`,
`Buffer.byteLength`). -/
def FileData.byteLength : FileData → Nat
  | FileData.str s => strByteLength s
  | FileData.bin b => b.length

/-- A node of the modelled filesystem: a file with content, or a directory
with an ordered, name-keyed list of children (real directories are
name-unique; no model invariant depends on uniqueness). -/
inductive FsNode where
  | file (data : FileData) (m : Meta)
  | dir (entries : List (String × FsNode)) (m : Meta)

/-- Whether a node is a directory (`stats.isDirectory()` when stat works). -/
def FsNode.isDir : FsNode → Bool
  | FsNode.file _ _ => false
  | FsNode.dir _ _ => true

/-- Stat metadata of a node. -/
def FsNode.meta : FsNode → Meta
  | FsNode.file _ m => m
  | FsNode.dir _ m => m

/-- Size reported by a successful `stat` on the node. -/
def statSize : FsNode → Nat
  | FsNode.file d _ => d.byteLength
  | FsNode.dir _ m => m.dirStatSize

/-- First child of a directory-entry list with the given name. -/
def findEntry : List (String × FsNode) → String → Option FsNode
  | [], _ => none
  | (k, v) :: tl, s => if k = s then some v else findEntry tl s

/-- Replace the first child with the given name (append when absent). -/
def setEntry : List (String × FsNode) → String → FsNode → List (String × FsNode)
  | [], s, n => [(s, n)]
  | (k, v) :: tl, s, n => if k = s then (s, n) :: tl else (k, v) :: setEntry tl s n

/-- Remove every child with the given name. -/
def removeEntry (es : List (String × FsNode)) (s : String) : List (String × FsNode) :=
  es.filter (fun pr => pr.1 ≠ s)

/-- Follow a segment path down the tree (the behaviour of the underlying
filesystem when an absolute path is opened): `none` when a segment is
missing or an intermediate node is a file. -/
def lookupNode : FsNode → List String → Option FsNode
  | n, [] => some n
  | FsNode.file _ _, _ :: _ => none
  | FsNode.dir es _, s :: rest =>
    match findEntry es s with
    | some child => lookupNode child rest
    | none => none

/-- `mkdir(path, { recursive: true })`: create every missing directory of
the chain; fails (`none`) when an existing file blocks the chain, in which
case nothing is created. -/
def mkdirp : FsNode → List String → Option FsNode
  | FsNode.file _ _, _ => none
  | FsNode.dir es m, [] => some (FsNode.dir es m)
  | FsNode.dir es m, s :: rest =>
    match findEntry es s with
    | some child => (mkdirp child rest).map (fun c => FsNode.dir (setEntry es s c) m)
    | none =>
      (mkdirp (FsNode.dir [] Meta.fresh) rest).map
        (fun c => FsNode.dir (setEntry es s c) m)

/-- The source's `ensureDirectory(path)`: if the path exists, report whether
it is a directory; otherwise try a recursive `mkdir` and report success. -/
def ensureDirectory (fs : FsNode) (p : List String) : Bool × FsNode :=
  match lookupNode fs p with
  | some n => (n.isDir, fs)
  | none =>
    match mkdirp fs p with
    | some fs1 => (true, fs1)
    | none => (false, fs)

/-- Plain `writeFile`/`Bun.write` to a path whose parent chain exists:
overwrites a file, fails on a directory target (`EISDIR`), a missing parent
(`ENOENT`) or a file used as a directory (`ENOTDIR`). -/
def writeAt : FsNode → List String → FileData → Option FsNode
  | _, [], _ => none
  | FsNode.file _ _, _ :: _, _ => none
  | FsNode.dir es m, [s], d =>
    match findEntry es s with
    | some (FsNode.dir _ _) => none
    | _ => some (FsNode.dir (setEntry es s (FsNode.file d Meta.fresh)) m)
  | FsNode.dir es m, s :: s' :: rest, d =>
    match findEntry es s with
    | some child =>
      (writeAt child (s' :: rest) d).map (fun c => FsNode.dir (setEntry es s c) m)
    | none => none

/-- The source's `writeFileByPath(path, content)`: best-effort
`ensureDirectory(dirname(path))` whose result is ignored, then the write;
returns whether the write succeeded, together with the resulting state
(directories created by the first step persist even when the write fails). -/
def writeFileByPath (fs : FsNode) (path : List String) (d : FileData) : Bool × FsNode :=
  let fs1 := (ensureDirectory fs path.dropLast).2
  match writeAt fs1 path d with
  | some fs2 => (true, fs2)
  | none => (false, fs1)

/-- `readFile(path)` without decoding: the stored content of a file, `none`
for a missing path or a directory (`EISDIR`). -/
def readFileAt (fs : FsNode) (p : List String) : Option FileData :=
  match lookupNode fs p with
  | some (FsNode.file d _) => some d
  | _ => none

/-- Remove the subtree at a path; a missing path is left untouched (the
`force` flag of `rm` turns it into a no-op).  Removing the root itself is
outside the model (the tenant root is never a deletion target here). -/
def removeAt : FsNode → List String → FsNode
  | n, [] => n
  | FsNode.file d m, _ :: _ => FsNode.file d m
  | FsNode.dir es m, [s] => FsNode.dir (removeEntry es s) m
  | FsNode.dir es m, s :: s' :: rest =>
    match findEntry es s with
    | some child => FsNode.dir (setEntry es s (removeAt child (s' :: rest))) m
    | none => FsNode.dir es m

/-- Whether `rm(path, ...)` can reach the final path component without a
`ENOTDIR` traversal error: walking the path never steps through an existing
file.  A component that is simply absent makes the rest of the walk a
`ENOENT`, which the `force` flag suppresses, so it counts as reachable. -/
def rmTraversalOk : FsNode → List String → Bool
  | _, [] => true
  | FsNode.file _ _, _ :: _ => false
  | FsNode.dir es _, s :: rest =>
    match findEntry es s with
    | some child => rmTraversalOk child rest
    | none => true

/-- The source's `deleteFileOrDirectoryByPath(path)`: it runs
`rm(path, recursive and force)` and reports success, with any thrown error
caught and reported as failure.  `force` suppresses only `ENOENT`, so an
absent path is a successful no-op, while a path that traverses an existing
file fails with `ENOTDIR` and leaves the tree unchanged. -/
def deleteFileOrDirectoryByPath (fs : FsNode) (p : List String) : Bool × FsNode :=
  if rmTraversalOk fs p then (true, removeAt fs p) else (false, fs)

/-- The source's `isDirectory(path)`: `stat` then `isDirectory()`, with any
stat failure reported as `false`. -/
def isDirectory (fs : FsNode) (p : List String) : Bool :=
  match lookupNode fs p with
  | some (FsNode.dir _ m) => m.statOk
  | _ => false

/-- `stat(path).size` as an option: `none` when the path is missing or the
stat call fails. -/
def statSizeAt (fs : FsNode) (p : List String) : Option Nat :=
  match lookupNode fs p with
  | some n => if n.meta.statOk then some (statSize n) else none
  | none => none

/-- One row of the source's `listDirectory` result:
`{ name, isDirectory, size, mtime }`. -/
structure DirEntry where
  name : String
  isDirectory : Bool
  size : Nat
  mtime : Nat
deriving DecidableEq

/-- The source's `listDirectory(path)` at clock value `now`: `[]` when the
path is missing or not a (stat-able) directory; otherwise one row per
`readdir` entry, where a failing per-entry `stat` falls back to size `0`
and timestamp `new Date()` instead of dropping the entry. -/
def listDirectory (fs : FsNode) (p : List String) (now : Nat) : List DirEntry :=
  match lookupNode fs p with
  | some (FsNode.dir es m) =>
    if m.statOk then
      es.map (fun pr =>
        if pr.2.meta.statOk then
          DirEntry.mk pr.1 pr.2.isDir (statSize pr.2) pr.2.meta.mtime
        else
          DirEntry.mk pr.1 pr.2.isDir 0 now)
    else []
  | _ => []

mutual

/-- The source's `calculateDirectorySize(dirPath)`: recursive size walk.
The `try` block wraps the whole entry loop, so a failing `stat` on a file
entry aborts the remaining entries of that directory and returns the sum
accumulated so far; recursive calls catch their own failures, so a failure
inside a subdirectory only truncates that subdirectory's contribution. -/
def calculateDirectorySize : FsNode → Nat
  | FsNode.file _ _ => 0
  | FsNode.dir es _ => calculateEntriesSize es

/-- Entry loop of `calculateDirectorySize`: directories recurse, files add
their stat size, and the first file whose stat fails ends the loop with the
partial sum. -/
def calculateEntriesSize : List (String × FsNode) → Nat
  | [] => 0
  | (_, n) :: tl =>
    match n with
    | FsNode.dir _ _ => calculateDirectorySize n + calculateEntriesSize tl
    | FsNode.file d m => if m.statOk then d.byteLength + calculateEntriesSize tl else 0

end

mutual

/-- The size walk the specification describes (`skip-and-continue`): a
failing entry is skipped and the walk still sums every other successfully
statted descendant file.  Stated from the spec's words, for comparison with
the source's `calculateDirectorySize`. -/
def skipAndContinueSize : FsNode → Nat
  | FsNode.file _ _ => 0
  | FsNode.dir es _ => skipAndContinueEntries es

/-- Entry loop of the spec-described skip-and-continue walk. -/
def skipAndContinueEntries : List (String × FsNode) → Nat
  | [] => 0
  | (_, n) :: tl =>
    match n with
    | FsNode.dir _ _ => skipAndContinueSize n + skipAndContinueEntries tl
    | FsNode.file d m =>
      (if m.statOk then d.byteLength else 0) + skipAndContinueEntries tl

end

/-- The source's `renameFileOrDirectory(oldPath, newPath)`: fail when the
old path is missing; ensure (creating if needed) the destination's parent
directory; fail when the destination exists; copy via
`Bun.write(newPath, await readFile(oldPath))` — which fails with `EISDIR`
when the source is a directory — and only then `rm` the source. -/
def renameFileOrDirectory (fs : FsNode) (oldPath newPath : List String) : Bool × FsNode :=
  match lookupNode fs oldPath with
  | none => (false, fs)
  | some _ =>
    let r := ensureDirectory fs newPath.dropLast
    if r.1 = false then (false, r.2)
    else
      match lookupNode r.2 newPath with
      | some _ => (false, r.2)
      | none =>
        match readFileAt r.2 oldPath with
        | none => (false, r.2)
        | some d =>
          match writeAt r.2 newPath d with
          | none => (false, r.2)
          | some fs2 => (true, removeAt fs2 oldPath)

/-- MIME type the text-read path infers from a file extension (defaulting
to `text/plain`). -/
def mimeTypeOfExt (ext : String) : String :=
  if ext = "html" then "text/html"
  else if ext = "css" then "text/css"
  else if ext = "js" then "application/javascript"
  else if ext = "json" then "application/json"
  else if ext = "md" then "text/markdown"
  else if ext = "txt" then "text/plain"
  else if ext = "png" then "image/png"
  else if ext = "jpg" ∨ ext = "jpeg" then "image/jpeg"
  else if ext = "gif" then "image/gif"
  else if ext = "svg" then "image/svg+xml"
  else "text/plain"

/-- Extension extraction of the read path:
`path.split(".").pop()?.toLowerCase() || ""` applied to the path string. -/
def extOfPath (path : List String) : String :=
  let last := (splitChar '.' (joinSegs0 path)).getLastD ""
  String.mk (last.data.map Char.toLower)

/-- Decoding bytes as UTF-8 the way `readFile(path, "utf-8")` does; the
replacement-character repair Node applies to invalid UTF-8 is abstracted to
the empty string (no claim ever reads invalid UTF-8). -/
def decodeUtf8Lossy (b : List Nat) : String :=
  match utf8DecodeBytes b with
  | some cs => String.mk cs
  | none => ""

/-- The source's `readFileByPath(path)`: infer the MIME type from the
extension of the whole path string; when it is an image type, return `null`
(binary files go through a different route); otherwise read and UTF-8
decode the file, with any read error returning `null`. -/
def readFileByPath (fs : FsNode) (path : List String) : Option (String × String) :=
  let ext := extOfPath path
  let mimeType := mimeTypeOfExt ext
  if strStartsWith mimeType "image/" then none
  else
    match readFileAt fs path with
    | some (FileData.str s) => some (s, mimeType)
    | some (FileData.bin b) => some (decodeUtf8Lossy b, mimeType)
    | none => none

/-- Outcome of the upload handler (`handleFileUpload`), restricted to the
steps after authentication and form parsing. -/
inductive UploadResult where
  | ok
  | fileTooLarge
  | quotaExceeded
  | writeFailed
deriving DecidableEq

/-- The upload handler `handleFileUpload` acting on a tenant root `fs` with
an already-resolved target path: reject files above `MAX_SIZE`; recompute
the tenant's disk usage and reject when `usage + file.size` exceeds
`MAX_USER_STORAGE` (the full new size is charged even when the target path
already exists); otherwise write through `writeFileByPath`. -/
def handleFileUpload (fs : FsNode) (path : List String) (d : FileData) :
    UploadResult × FsNode :=
  if d.byteLength > MAX_SIZE then (UploadResult.fileTooLarge, fs)
  else
    let currentUsage := calculateDirectorySize fs
    if currentUsage + d.byteLength > MAX_USER_STORAGE then
      (UploadResult.quotaExceeded, fs)
    else
      let w := writeFileByPath fs path d
      if w.1 then (UploadResult.ok, w.2) else (UploadResult.writeFailed, w.2)

/-- Outcome of the content-update handler
(`handleUserFileContentPathUpdate`), restricted to the steps after
authentication and path resolution. -/
inductive UpdateResult where
  | ok
  | emptyContent
  | isDirectoryTarget
  | quotaExceeded
  | writeFailed
deriving DecidableEq

/-- The content-update handler `handleUserFileContentPathUpdate` acting on
a tenant root `fs` with an already-resolved file path: reject empty bodies
and directory targets; read the original size (`0` when the stat fails or
the file is missing); charge the quota only with the positive size delta
`newSize - originalSize`; then write through `writeFileByPath`. -/
def handleUserFileContentPathUpdate (fs : FsNode) (path : List String)
    (content : String) : UpdateResult × FsNode :=
  if content = "" then (UpdateResult.emptyContent, fs)
  else if isDirectory fs path then (UpdateResult.isDirectoryTarget, fs)
  else
    let originalSize := (statSizeAt fs path).getD 0
    let newSize := strByteLength content
    let sizeDifference : Int := (newSize : Int) - (originalSize : Int)
    let doWrite := fun (fs0 : FsNode) =>
      let w := writeFileByPath fs0 path (FileData.str content)
      if w.1 then (UpdateResult.ok, w.2) else (UpdateResult.writeFailed, w.2)
    if 0 < sizeDifference then
      let currentUsage := calculateDirectorySize fs
      if (currentUsage : Int) + sizeDifference > (MAX_USER_STORAGE : Int) then
        (UpdateResult.quotaExceeded, fs)
      else doWrite fs
    else doWrite fs

theorem strData_append (a b : String) : (a ++ b).data = a.data ++ b.data := by
  cases a; cases b; rfl

theorem strStartsWith_joinSegs0_dotdot (l : List String) :
    strStartsWith (joinSegs0 (".." :: l)) ".." = true := by
  cases l with
  | nil => decide
  | cons x xs =>
    show strStartsWith (".." ++ "/" ++ joinSegs0 (x :: xs)) ".." = true
    unfold strStartsWith
    rw [strData_append, strData_append]
    simp [List.isPrefixOf]

theorem commonPrefixLen_le_left :
    ∀ (a b : List String), commonPrefixLen a b ≤ a.length := by
  intro a
  induction a with
  | nil => intro b; cases b <;> simp [commonPrefixLen]
  | cons x xs ih =>
    intro b
    cases b with
    | nil => simp [commonPrefixLen]
    | cons y ys =>
      by_cases h : x = y
      · simpa [commonPrefixLen, h] using Nat.succ_le_succ (ih ys)
      · simp [commonPrefixLen, h]

theorem commonPrefixLen_full_prefix :
    ∀ (a b : List String), commonPrefixLen a b = a.length → a <+: b := by
  intro a
  induction a with
  | nil => intro b _; exact List.nil_prefix
  | cons x xs ih =>
    intro b h
    cases b with
    | nil => simp [commonPrefixLen] at h
    | cons y ys =>
      by_cases hxy : x = y
      · subst hxy
        simp [commonPrefixLen] at h
        exact List.cons_prefix_cons.mpr ⟨rfl, ih ys h⟩
      · simp [commonPrefixLen, hxy] at h

theorem jsRelative_prefix_of_not_dotdot (cwd src dst : String)
    (h : strStartsWith (jsRelative cwd src dst) ".." = false) :
    resolveParts cwd src <+: resolveParts cwd dst := by
  simp only [jsRelative] at h
  rcases Nat.lt_or_ge (commonPrefixLen (resolveParts cwd src) (resolveParts cwd dst))
      (resolveParts cwd src).length with hlt | hge
  · exfalso
    have hk : (resolveParts cwd src).length -
        commonPrefixLen (resolveParts cwd src) (resolveParts cwd dst) =
        ((resolveParts cwd src).length -
        commonPrefixLen (resolveParts cwd src) (resolveParts cwd dst) - 1) + 1 := by omega
    rw [hk, List.replicate_succ, List.cons_append] at h
    rw [strStartsWith_joinSegs0_dotdot] at h
    exact Bool.noConfusion h
  · have heq : commonPrefixLen (resolveParts cwd src) (resolveParts cwd dst) =
        (resolveParts cwd src).length :=
      Nat.le_antisymm (commonPrefixLen_le_left _ _) hge
    exact commonPrefixLen_full_prefix _ _ heq

/-- C1: for every tenant id and raw path string (including `../` sequences
in plain, percent-encoded, or mixed slash form), `resolvePath` either fails
or returns a path whose absolute resolution lies inside the absolute
resolution of that tenant's root directory `join(STORAGE_DIR, userId)`. -/
theorem resolvePath_stays_inside_root (cwd userId subPath p : String)
    (h : resolvePath cwd userId subPath = Except.ok p) :
    resolveParts cwd (jsJoin STORAGE_DIR userId) <+: resolveParts cwd p := by
  unfold resolvePath at h
  cases hd : decodeURIComponent subPath with
  | none => rw [hd] at h; cases h
  | some decoded =>
    rw [hd] at h
    simp only [] at h
    split at h
    · cases h
    · next hcond =>
      have hp : p = jsJoin (jsJoin STORAGE_DIR userId)
          (stripLeadingSlash (collapseDupSlashes (toForwardSlashes decoded))) := by
        cases h; rfl
      subst hp
      simp only [Bool.or_eq_true, not_or, Bool.not_eq_true] at hcond
      exact jsRelative_prefix_of_not_dotdot _ _ _ hcond.1

/-- Witness for C1 at a concrete adversarial input: the encoded traversal
`"..%2F..%2Fetc%2Fpasswd"` is rejected, and an honest path resolves inside
the root. -/
theorem resolvePath_stays_inside_root_witness :
    resolvePath "/srv" "alice" "notes/a.txt" = Except.ok "uploads/alice/notes/a.txt" ∧
    resolveParts "/srv" (jsJoin STORAGE_DIR "alice") <+:
      resolveParts "/srv" "uploads/alice/notes/a.txt" ∧
    resolvePath "/srv" "alice" "..%2F..%2Fetc%2Fpasswd" =
      Except.error ResolveError.invalidPath :=
  ⟨rfl, resolvePath_stays_inside_root "/srv" "alice" "notes/a.txt"
      "uploads/alice/notes/a.txt" rfl, rfl⟩

theorem findEntry_setEntry_self (es : List (String × FsNode)) (s : String) (n : FsNode) :
    findEntry (setEntry es s n) s = some n := by
  induction es with
  | nil => simp [setEntry, findEntry]
  | cons pr tl ih =>
    obtain ⟨k, v⟩ := pr
    by_cases h : k = s
    · simp [setEntry, h, findEntry]
    · simp [setEntry, h, findEntry, ih]

theorem findEntry_setEntry_ne (es : List (String × FsNode)) (s t : String) (n : FsNode)
    (h : t ≠ s) : findEntry (setEntry es s n) t = findEntry es t := by
  induction es with
  | nil => simp [setEntry, findEntry, Ne.symm h]
  | cons pr tl ih =>
    obtain ⟨k, v⟩ := pr
    by_cases hk : k = s
    · subst hk
      simp [setEntry, findEntry, Ne.symm h]
    · simp [setEntry, hk, findEntry, ih]

theorem setEntry_of_findEntry (es : List (String × FsNode)) (s : String) (v : FsNode)
    (h : findEntry es s = some v) : setEntry es s v = es := by
  induction es with
  | nil => simp [findEntry] at h
  | cons pr tl ih =>
    obtain ⟨k, w⟩ := pr
    by_cases hk : k = s
    · subst hk
      simp [findEntry] at h
      simp [setEntry, h]
    · simp [findEntry, hk] at h
      simp [setEntry, hk, ih h]

theorem removeEntry_of_findEntry_none (es : List (String × FsNode)) (s : String)
    (h : findEntry es s = none) : removeEntry es s = es := by
  induction es with
  | nil => rfl
  | cons pr tl ih =>
    obtain ⟨k, v⟩ := pr
    by_cases hk : k = s
    · simp [findEntry, hk] at h
    · simp [findEntry, hk] at h
      have ih2 := ih h
      simp only [removeEntry] at ih2 ⊢
      rw [List.filter_cons, if_pos (by simp [hk]), ih2]

theorem findEntry_removeEntry (es : List (String × FsNode)) (s : String) :
    findEntry (removeEntry es s) s = none := by
  induction es with
  | nil => rfl
  | cons pr tl ih =>
    obtain ⟨k, v⟩ := pr
    by_cases hk : k = s
    · simpa [removeEntry, List.filter, hk] using ih
    · simpa [removeEntry, List.filter, hk, findEntry] using ih

theorem lookupNode_append (p q : List String) :
    ∀ fs, lookupNode fs (p ++ q) = (lookupNode fs p).bind (fun n => lookupNode n q) := by
  induction p with
  | nil => intro fs; simp [lookupNode]
  | cons s tl ih =>
    intro fs
    cases fs with
    | file d m => simp [lookupNode]
    | dir es m =>
      simp only [List.cons_append, lookupNode]
      cases h : findEntry es s with
      | none => simp
      | some child => simp [ih child]

theorem lookupNode_dropLast (fs : FsNode) (p : List String) (n : FsNode)
    (hp : p ≠ []) (h : lookupNode fs p = some n) :
    ∃ m, lookupNode fs p.dropLast = some m := by
  have hsplit : p.dropLast ++ [p.getLast hp] = p := List.dropLast_append_getLast hp
  rw [← hsplit, lookupNode_append] at h
  cases hm : lookupNode fs p.dropLast with
  | none => rw [hm] at h; cases h
  | some m => exact ⟨m, rfl⟩

theorem writeAt_lookup : ∀ (p : List String) (fs fs' : FsNode) (d : FileData),
    writeAt fs p d = some fs' → lookupNode fs' p = some (FsNode.file d Meta.fresh) := by
  intro p
  induction p with
  | nil => intro fs fs' d h; cases fs <;> cases h
  | cons s tl ih =>
    intro fs fs' d h
    cases fs with
    | file _ _ => cases h
    | dir es m =>
      cases tl with
      | nil =>
        simp only [writeAt] at h
        cases hf : findEntry es s with
        | none =>
          simp only [hf] at h
          cases h
          simp [lookupNode, findEntry_setEntry_self]
        | some child =>
          cases child with
          | dir _ _ =>
            simp only [hf] at h
            exact Option.noConfusion h
          | file _ _ =>
            simp only [hf] at h
            cases h
            simp [lookupNode, findEntry_setEntry_self]
      | cons s' tl' =>
        simp only [writeAt] at h
        cases hf : findEntry es s with
        | none =>
          simp only [hf] at h
          exact Option.noConfusion h
        | some child =>
          simp only [hf] at h
          cases hw : writeAt child (s' :: tl') d with
          | none =>
            simp only [hw, Option.map_none'] at h
            exact Option.noConfusion h
          | some c =>
            simp only [hw, Option.map_some'] at h
            cases h
            simp [lookupNode, findEntry_setEntry_self, ih _ _ _ hw]

theorem writeFileByPath_lookup (fs : FsNode) (p : List String) (d : FileData)
    (hw : (writeFileByPath fs p d).1 = true) :
    lookupNode (writeFileByPath fs p d).2 p = some (FsNode.file d Meta.fresh) := by
  cases hwa : writeAt (ensureDirectory fs p.dropLast).2 p d with
  | none =>
    exfalso
    simp only [writeFileByPath, hwa] at hw
    exact Bool.noConfusion hw
  | some fs2 =>
    simp only [writeFileByPath, hwa]
    exact writeAt_lookup _ _ _ _ hwa

theorem mkdirp_lookup : ∀ (p : List String) (fs fs' : FsNode),
    mkdirp fs p = some fs' →
    (∃ es m, lookupNode fs' p = some (FsNode.dir es m)) ∧
    (lookupNode fs p = none → lookupNode fs' p = some (FsNode.dir [] Meta.fresh)) := by
  intro p
  induction p with
  | nil =>
    intro fs fs' h
    cases fs with
    | file _ _ => cases h
    | dir es m =>
      cases h
      constructor
      · exact ⟨es, m, rfl⟩
      · intro hc
        exact Option.noConfusion hc
  | cons s tl ih =>
    intro fs fs' h
    cases fs with
    | file _ _ => cases h
    | dir es m =>
      simp only [mkdirp] at h
      cases hf : findEntry es s with
      | some child =>
        simp only [hf] at h
        cases hc : mkdirp child tl with
        | none =>
          simp only [hc, Option.map_none'] at h
          exact Option.noConfusion h
        | some c =>
          simp only [hc, Option.map_some'] at h
          cases h
          have hl : lookupNode (FsNode.dir (setEntry es s c) m) (s :: tl) = lookupNode c tl := by
            simp [lookupNode, findEntry_setEntry_self]
          refine ⟨by rw [hl]; exact (ih child c hc).1, fun hnone => ?_⟩
          rw [hl]
          have : lookupNode child tl = none := by
            simpa [lookupNode, hf] using hnone
          exact (ih child c hc).2 this
      | none =>
        simp only [hf] at h
        cases hc : mkdirp (FsNode.dir [] Meta.fresh) tl with
        | none =>
          simp only [hc, Option.map_none'] at h
          exact Option.noConfusion h
        | some c =>
          simp only [hc, Option.map_some'] at h
          cases h
          have hl : lookupNode (FsNode.dir (setEntry es s c) m) (s :: tl) = lookupNode c tl := by
            simp [lookupNode, findEntry_setEntry_self]
          cases tl with
          | nil =>
            cases hc
            exact ⟨⟨[], Meta.fresh, by rw [hl]; rfl⟩, fun _ => by rw [hl]; rfl⟩
          | cons t tl2 =>
            have hnone2 : lookupNode (FsNode.dir [] Meta.fresh) (t :: tl2) = none := by
              simp [lookupNode, findEntry]
            refine ⟨by rw [hl]; exact (ih _ c hc).1, fun _ => ?_⟩
            rw [hl]
            exact (ih _ c hc).2 hnone2

theorem mkdirp_preserves_dir : ∀ (p : List String) (fs fs' : FsNode) (q : List String)
    (es : List (String × FsNode)) (mm : Meta),
    mkdirp fs p = some fs' → lookupNode fs q = some (FsNode.dir es mm) →
    ∃ es2 m2, lookupNode fs' q = some (FsNode.dir es2 m2) := by
  intro p
  induction p with
  | nil =>
    intro fs fs' q es mm h hq
    cases fs with
    | file _ _ => cases h
    | dir es0 m0 => cases h; exact ⟨es, mm, hq⟩
  | cons s tl ih =>
    intro fs fs' q es mm h hq
    cases fs with
    | file _ _ => cases h
    | dir es0 m0 =>
      simp only [mkdirp] at h
      cases hf : findEntry es0 s with
      | some child =>
        simp only [hf] at h
        cases hc : mkdirp child tl with
        | none =>
          simp only [hc, Option.map_none'] at h
          exact Option.noConfusion h
        | some c =>
          simp only [hc, Option.map_some'] at h
          cases h
          cases q with
          | nil => exact ⟨setEntry es0 s c, m0, rfl⟩
          | cons t qtl =>
            simp only [lookupNode] at hq
            cases hft : findEntry es0 t with
            | none =>
              simp only [hft] at hq
              exact Option.noConfusion hq
            | some childt =>
              simp only [hft] at hq
              by_cases hts : t = s
              · subst hts
                rw [hf] at hft
                cases hft
                have : lookupNode (FsNode.dir (setEntry es0 t c) m0) (t :: qtl) =
                    lookupNode c qtl := by
                  simp [lookupNode, findEntry_setEntry_self]
                rw [this]
                exact ih child c qtl es mm hc hq
              · have : lookupNode (FsNode.dir (setEntry es0 s c) m0) (t :: qtl) =
                    lookupNode childt qtl := by
                  simp [lookupNode, findEntry_setEntry_ne es0 s t c hts, hft]
                rw [this]
                exact ⟨es, mm, hq⟩
      | none =>
        simp only [hf] at h
        cases hc : mkdirp (FsNode.dir [] Meta.fresh) tl with
        | none =>
          simp only [hc, Option.map_none'] at h
          exact Option.noConfusion h
        | some c =>
          simp only [hc, Option.map_some'] at h
          cases h
          cases q with
          | nil => exact ⟨setEntry es0 s c, m0, rfl⟩
          | cons t qtl =>
            simp only [lookupNode] at hq
            cases hft : findEntry es0 t with
            | none =>
              simp only [hft] at hq
              exact Option.noConfusion hq
            | some childt =>
              simp only [hft] at hq
              have hts : t ≠ s := by
                intro hcontra
                subst hcontra
                rw [hf] at hft
                cases hft
              have : lookupNode (FsNode.dir (setEntry es0 s c) m0) (t :: qtl) =
                  lookupNode childt qtl := by
                simp [lookupNode, findEntry_setEntry_ne es0 s t c hts, hft]
              rw [this]
              exact ⟨es, mm, hq⟩

theorem removeAt_of_lookup_none : ∀ (p : List String) (fs : FsNode),
    lookupNode fs p = none → removeAt fs p = fs := by
  intro p
  induction p with
  | nil => intro fs _; cases fs <;> rfl
  | cons s tl ih =>
    intro fs h
    cases fs with
    | file d m => rfl
    | dir es m =>
      cases tl with
      | nil =>
        have hf : findEntry es s = none := by
          cases hf : findEntry es s with
          | none => rfl
          | some child => simp [lookupNode, hf] at h
        simp [removeAt, removeEntry_of_findEntry_none es s hf]
      | cons s' tl' =>
        cases hf : findEntry es s with
        | none => simp [removeAt, hf]
        | some child =>
          have hchild : lookupNode child (s' :: tl') = none := by
            simpa [lookupNode, hf] using h
          simp [removeAt, hf, ih child hchild, setEntry_of_findEntry es s child hf]

theorem removeAt_lookup_self : ∀ (p : List String) (fs : FsNode), p ≠ [] →
    lookupNode (removeAt fs p) p = none := by
  intro p
  induction p with
  | nil => intro fs h; exact absurd rfl h
  | cons s tl ih =>
    intro fs _
    cases fs with
    | file d m => rfl
    | dir es m =>
      cases tl with
      | nil => simp [removeAt, lookupNode, findEntry_removeEntry]
      | cons s' tl' =>
        cases hf : findEntry es s with
        | none => simp [removeAt, hf, lookupNode]
        | some child =>
          simp only [removeAt, hf]
          simp [lookupNode, findEntry_setEntry_self, ih child (by simp)]

theorem lookupNode_removeAt_parent : ∀ (p : List String) (fs : FsNode) (s : String),
    lookupNode (removeAt fs (p ++ [s])) p =
      (lookupNode fs p).map (fun n =>
        match n with
        | FsNode.dir es m => FsNode.dir (removeEntry es s) m
        | x => x) := by
  intro p
  induction p with
  | nil =>
    intro fs s
    cases fs with
    | file d m => rfl
    | dir es m => rfl
  | cons t tl ih =>
    intro fs s
    cases fs with
    | file d m => rfl
    | dir es m =>
      cases tl with
      | nil =>
        simp only [List.cons_append, List.nil_append]
        cases hf : findEntry es t with
        | none => simp [removeAt, hf, lookupNode]
        | some child =>
          simp only [removeAt, hf, lookupNode, findEntry_setEntry_self]
          cases child with
          | file d' m' => rfl
          | dir es' m' => rfl
      | cons u tl2 =>
        simp only [List.cons_append]
        cases hf : findEntry es t with
        | none => simp [removeAt, hf, lookupNode]
        | some child =>
          simp only [removeAt, hf, lookupNode, findEntry_setEntry_self]
          have := ih child s
          simpa [List.cons_append] using this

/-- C4: `rename(old, new)` with an already-existing destination fails and
leaves the filesystem — in particular the contents at both paths —
exactly as they were. -/
theorem rename_never_clobbers (fs : FsNode) (oldPath newPath : List String) (n : FsNode)
    (h : lookupNode fs newPath = some n) :
    renameFileOrDirectory fs oldPath newPath = (false, fs) := by
  unfold renameFileOrDirectory
  cases ho : lookupNode fs oldPath with
  | none => rfl
  | some x =>
    have hdrop : ∃ mnode, lookupNode fs newPath.dropLast = some mnode := by
      by_cases hp : newPath = []
      · subst hp
        refine ⟨fs, ?_⟩
        cases fs <;> rfl
      · exact lookupNode_dropLast fs newPath n hp h
    obtain ⟨mnode, hm⟩ := hdrop
    have hens : ensureDirectory fs newPath.dropLast = (mnode.isDir, fs) := by
      unfold ensureDirectory; rw [hm]
    cases hd : mnode.isDir with
    | false => simp [hens, hd]
    | true => simp [hens, hd, h]

/-- Witness for C4: renaming `a` onto the existing `b` fails and leaves the
tree untouched. -/
theorem rename_never_clobbers_witness :
    renameFileOrDirectory
      (FsNode.dir [("a", FsNode.file (FileData.str "A") Meta.fresh),
                   ("b", FsNode.file (FileData.str "B") Meta.fresh)] Meta.fresh)
      ["a"] ["b"] =
    (false,
      FsNode.dir [("a", FsNode.file (FileData.str "A") Meta.fresh),
                  ("b", FsNode.file (FileData.str "B") Meta.fresh)] Meta.fresh) :=
  rename_never_clobbers _ ["a"] ["b"] (FsNode.file (FileData.str "B") Meta.fresh) rfl

/-- C5 (code bug): at a concrete state none of the three documented failure
conditions holds — the old path exists (a directory), the destination's
parent is available, the destination is free — yet `renameFileOrDirectory`
fails, because its copy step `readFile(oldPath)` cannot read a directory;
the rename-a-directory feature promised by the function's own name and
comment never succeeds. -/
theorem rename_directory_always_fails :
    (lookupNode
      (FsNode.dir [("d", FsNode.dir [("f", FsNode.file (FileData.str "x") Meta.fresh)]
        Meta.fresh)] Meta.fresh) ["d"]).isSome = true ∧
    (ensureDirectory
      (FsNode.dir [("d", FsNode.dir [("f", FsNode.file (FileData.str "x") Meta.fresh)]
        Meta.fresh)] Meta.fresh) ([] : List String)).1 = true ∧
    lookupNode
      (FsNode.dir [("d", FsNode.dir [("f", FsNode.file (FileData.str "x") Meta.fresh)]
        Meta.fresh)] Meta.fresh) ["e"] = none ∧
    renameFileOrDirectory
      (FsNode.dir [("d", FsNode.dir [("f", FsNode.file (FileData.str "x") Meta.fresh)]
        Meta.fresh)] Meta.fresh) ["d"] ["e"] =
    (false,
      FsNode.dir [("d", FsNode.dir [("f", FsNode.file (FileData.str "x") Meta.fresh)]
        Meta.fresh)] Meta.fresh) :=
  ⟨rfl, rfl, rfl, rfl⟩

theorem rmTraversalOk_of_lookup_some : ∀ (p : List String) (fs n : FsNode),
    lookupNode fs p = some n → rmTraversalOk fs p = true := by
  intro p
  induction p with
  | nil => intro fs n _; cases fs <;> rfl
  | cons s tl ih =>
    intro fs n h
    cases fs with
    | file d m => exact Option.noConfusion h
    | dir es m =>
      simp only [lookupNode] at h
      cases hf : findEntry es s with
      | none =>
        simp only [hf] at h
        exact Option.noConfusion h
      | some child =>
        simp only [hf] at h
        simp only [rmTraversalOk, hf]
        exact ih child n h

/-- C9 (amended): `deleteRecursive` on an existing target removes it and
everything beneath it — a subsequent parent listing no longer contains the
entry's name — and deleting a path that is merely absent (`ENOENT`: the
walk to it never steps through an existing file) reports success, changing
nothing; a missing path that traverses an existing file instead fails with
`ENOTDIR`, which `force` does not suppress. -/
theorem deleteRecursive_removes_subtree :
    (∀ (fs : FsNode) (p : List String) (s : String) (n : FsNode) (q : List String)
      (now : Nat),
      lookupNode fs (p ++ [s]) = some n →
      (deleteFileOrDirectoryByPath fs (p ++ [s])).1 = true ∧
      lookupNode (deleteFileOrDirectoryByPath fs (p ++ [s])).2 ((p ++ [s]) ++ q) = none ∧
      ∀ e ∈ listDirectory (deleteFileOrDirectoryByPath fs (p ++ [s])).2 p now,
        e.name ≠ s) ∧
    (∀ (fs : FsNode) (p : List String),
      rmTraversalOk fs p = true → lookupNode fs p = none →
      deleteFileOrDirectoryByPath fs p = (true, fs)) := by
  constructor
  · intro fs p s n q now h
    have hok : rmTraversalOk fs (p ++ [s]) = true :=
      rmTraversalOk_of_lookup_some (p ++ [s]) fs n h
    have hdel : deleteFileOrDirectoryByPath fs (p ++ [s]) =
        (true, removeAt fs (p ++ [s])) := by
      simp [deleteFileOrDirectoryByPath, hok]
    refine ⟨by rw [hdel], ?_, ?_⟩
    · rw [hdel]
      have hself : lookupNode (removeAt fs (p ++ [s])) (p ++ [s]) = none :=
        removeAt_lookup_self (p ++ [s]) fs (by simp)
      show lookupNode (removeAt fs (p ++ [s])) ((p ++ [s]) ++ q) = none
      rw [lookupNode_append, hself]
      rfl
    · intro e he
      rw [hdel] at he
      cases hl : lookupNode fs p with
      | none =>
        rw [listDirectory, lookupNode_removeAt_parent, hl] at he
        simp at he
      | some node =>
        cases node with
        | file d m =>
          rw [listDirectory, lookupNode_removeAt_parent, hl] at he
          simp at he
        | dir es m =>
          rw [listDirectory, lookupNode_removeAt_parent, hl] at he
          simp only [Option.map_some'] at he
          by_cases hst : m.statOk = true
          · simp only [hst, if_true] at he
            obtain ⟨pr, hpr, hepr⟩ := List.mem_map.mp he
            have hne : pr.1 ≠ s := by
              have hmem := List.mem_filter.mp hpr
              simpa using hmem.2
            have hname : e.name = pr.1 := by
              by_cases hc : pr.2.meta.statOk = true
              · rw [if_pos hc] at hepr
                rw [← hepr]
              · rw [if_neg hc] at hepr
                rw [← hepr]
            rw [hname]
            exact hne
          · simp only [Bool.not_eq_true] at hst
            simp [hst] at he
  · intro fs p hok h
    simp [deleteFileOrDirectoryByPath, hok, removeAt_of_lookup_none p fs h]

/-- Counterexample for C9 as stated: the path `a/b` is missing (its lookup
fails), yet deleting it does not report success — `a` is an existing file,
so the `rm` walk fails with `ENOTDIR`, which `force` does not suppress, and
the source's catch returns failure. -/
theorem deleteRecursive_missing_path_counterexample :
    lookupNode (FsNode.dir [("a", FsNode.file (FileData.str "x") Meta.fresh)] Meta.fresh)
      ["a", "b"] = none ∧
    deleteFileOrDirectoryByPath
      (FsNode.dir [("a", FsNode.file (FileData.str "x") Meta.fresh)] Meta.fresh)
      ["a", "b"] =
    (false, FsNode.dir [("a", FsNode.file (FileData.str "x") Meta.fresh)] Meta.fresh) :=
  ⟨rfl, rfl⟩

/-- Witness for C9: deleting the existing nested directory `d` (which
contains a file) succeeds and empties the parent listing, and deleting the
absent entry `ghost` succeeds without touching the tree. -/
theorem deleteRecursive_removes_subtree_witness :
    (deleteFileOrDirectoryByPath
      (FsNode.dir [("d", FsNode.dir [("f", FsNode.file (FileData.str "x") Meta.fresh)]
        Meta.fresh)] Meta.fresh) ["d"]).1 = true ∧
    lookupNode
      (deleteFileOrDirectoryByPath
        (FsNode.dir [("d", FsNode.dir [("f", FsNode.file (FileData.str "x") Meta.fresh)]
          Meta.fresh)] Meta.fresh) ["d"]).2 ["d", "f"] = none ∧
    (∀ e ∈ listDirectory
        (deleteFileOrDirectoryByPath
          (FsNode.dir [("d", FsNode.dir [("f", FsNode.file (FileData.str "x") Meta.fresh)]
            Meta.fresh)] Meta.fresh) ["d"]).2 [] 0, e.name ≠ "d") ∧
    deleteFileOrDirectoryByPath (FsNode.dir [] Meta.fresh) ["ghost"] =
      (true, FsNode.dir [] Meta.fresh) := by
  refine ⟨?_, ?_, ?_, ?_⟩
  · exact (deleteRecursive_removes_subtree.1
      (FsNode.dir [("d", FsNode.dir [("f", FsNode.file (FileData.str "x") Meta.fresh)]
        Meta.fresh)] Meta.fresh) [] "d"
      (FsNode.dir [("f", FsNode.file (FileData.str "x") Meta.fresh)] Meta.fresh)
      ["f"] 0 rfl).1
  · exact (deleteRecursive_removes_subtree.1
      (FsNode.dir [("d", FsNode.dir [("f", FsNode.file (FileData.str "x") Meta.fresh)]
        Meta.fresh)] Meta.fresh) [] "d"
      (FsNode.dir [("f", FsNode.file (FileData.str "x") Meta.fresh)] Meta.fresh)
      ["f"] 0 rfl).2.1
  · exact (deleteRecursive_removes_subtree.1
      (FsNode.dir [("d", FsNode.dir [("f", FsNode.file (FileData.str "x") Meta.fresh)]
        Meta.fresh)] Meta.fresh) [] "d"
      (FsNode.dir [("f", FsNode.file (FileData.str "x") Meta.fresh)] Meta.fresh)
      [] 0 rfl).2.2
  · exact deleteRecursive_removes_subtree.2 (FsNode.dir [] Meta.fresh) ["ghost"] rfl rfl

/-- C10: a rename that fails can still mutate the filesystem: the missing
parent chain of the destination is created before the destination-exists
check and the copy attempt run, and it remains on disk after the failure. -/
theorem rename_failure_leaves_created_parents (fs : FsNode)
    (oldPath newPath : List String) (es : List (String × FsNode)) (m : Meta)
    (hold : lookupNode fs oldPath = some (FsNode.dir es m))
    (hparent : lookupNode fs newPath.dropLast = none)
    (hens : (ensureDirectory fs newPath.dropLast).1 = true) :
    (renameFileOrDirectory fs oldPath newPath).1 = false ∧
    ∃ es2 m2, lookupNode (renameFileOrDirectory fs oldPath newPath).2
      newPath.dropLast = some (FsNode.dir es2 m2) := by
  have hfs1 : ∃ fs1, mkdirp fs newPath.dropLast = some fs1 := by
    unfold ensureDirectory at hens
    rw [hparent] at hens
    cases hmk : mkdirp fs newPath.dropLast with
    | none => rw [hmk] at hens; exact Bool.noConfusion hens
    | some fs1 => exact ⟨fs1, rfl⟩
  obtain ⟨fs1, hmk⟩ := hfs1
  have hensEq : ensureDirectory fs newPath.dropLast = (true, fs1) := by
    unfold ensureDirectory
    rw [hparent, hmk]
  have hlookup1 : lookupNode fs1 newPath.dropLast = some (FsNode.dir [] Meta.fresh) :=
    (mkdirp_lookup newPath.dropLast fs fs1 hmk).2 hparent
  have hne : newPath ≠ [] := by
    intro hcontra
    subst hcontra
    cases fs <;> exact Option.noConfusion hparent
  have hnew : lookupNode fs1 newPath = none := by
    conv_lhs => rw [← List.dropLast_append_getLast hne]
    rw [lookupNode_append, hlookup1]
    simp [lookupNode, findEntry]
  obtain ⟨es2, m2, hdir1⟩ :=
    mkdirp_preserves_dir newPath.dropLast fs fs1 oldPath es m hmk hold
  have hread : readFileAt fs1 oldPath = none := by
    simp [readFileAt, hdir1]
  constructor
  · unfold renameFileOrDirectory
    rw [hold]
    simp [hensEq, hnew, hread]
  · unfold renameFileOrDirectory
    rw [hold]
    simp only [hensEq]
    simp only [hnew, hread]
    exact ⟨[], Meta.fresh, by simpa using hlookup1⟩

/-- Witness for C10: renaming the directory `d` to `p/q/e` fails, yet the
previously missing chain `p/q` exists afterwards. -/
theorem rename_failure_leaves_created_parents_witness :
    (renameFileOrDirectory
      (FsNode.dir [("d", FsNode.dir [("g", FsNode.file (FileData.str "y") Meta.fresh)]
        Meta.fresh)] Meta.fresh) ["d"] ["p", "q", "e"]).1 = false ∧
    ∃ es2 m2, lookupNode
      (renameFileOrDirectory
        (FsNode.dir [("d", FsNode.dir [("g", FsNode.file (FileData.str "y") Meta.fresh)]
          Meta.fresh)] Meta.fresh) ["d"] ["p", "q", "e"]).2
      (["p", "q", "e"] : List String).dropLast = some (FsNode.dir es2 m2) :=
  rename_failure_leaves_created_parents
    (FsNode.dir [("d", FsNode.dir [("g", FsNode.file (FileData.str "y") Meta.fresh)]
      Meta.fresh)] Meta.fresh) ["d"] ["p", "q", "e"]
    [("g", FsNode.file (FileData.str "y") Meta.fresh)] Meta.fresh rfl rfl rfl

/-- C6: `listDirectory` never raises: a missing path or a non-directory
yields the empty list, and a directory produces exactly one row per child
even when the per-entry stat fails — such rows keep the name and dirent
kind and fall back to size `0` and the current timestamp instead of being
dropped. -/
theorem listDirectory_total_best_effort :
    (∀ (fs : FsNode) (p : List String) (now : Nat),
      lookupNode fs p = none → listDirectory fs p now = []) ∧
    (∀ (fs : FsNode) (p : List String) (now : Nat) (d : FileData) (m : Meta),
      lookupNode fs p = some (FsNode.file d m) → listDirectory fs p now = []) ∧
    (∀ (fs : FsNode) (p : List String) (now : Nat)
      (es : List (String × FsNode)) (m : Meta),
      lookupNode fs p = some (FsNode.dir es m) → m.statOk = true →
      (listDirectory fs p now).length = es.length ∧
      (∀ pr ∈ es, pr.2.meta.statOk = false →
        DirEntry.mk pr.1 pr.2.isDir 0 now ∈ listDirectory fs p now) ∧
      (∀ pr ∈ es, pr.2.meta.statOk = true →
        DirEntry.mk pr.1 pr.2.isDir (statSize pr.2) pr.2.meta.mtime ∈
          listDirectory fs p now)) := by
  refine ⟨fun fs p now h => by simp [listDirectory, h],
          fun fs p now d m h => by simp [listDirectory, h],
          fun fs p now es m h hst => ⟨?_, ?_, ?_⟩⟩
  · simp [listDirectory, h, hst]
  · intro pr hpr hbad
    simp only [listDirectory, h, hst, if_true]
    exact List.mem_map.mpr ⟨pr, hpr, by simp [hbad]⟩
  · intro pr hpr hok
    simp only [listDirectory, h, hst, if_true]
    exact List.mem_map.mpr ⟨pr, hpr, by simp [hok]⟩

/-- Witness for C6: a missing path lists as empty, and a child whose stat
fails still appears, with size `0` and the fallback timestamp `7`. -/
theorem listDirectory_total_best_effort_witness :
    listDirectory (FsNode.dir [] Meta.fresh) ["x"] 7 = [] ∧
    DirEntry.mk "a" false 0 7 ∈
      listDirectory
        (FsNode.dir [("a", FsNode.file (FileData.str "z") ⟨false, 3, 0⟩)] Meta.fresh)
        [] 7 := by
  constructor
  · exact listDirectory_total_best_effort.1 (FsNode.dir [] Meta.fresh) ["x"] 7 rfl
  · exact (listDirectory_total_best_effort.2.2
      (FsNode.dir [("a", FsNode.file (FileData.str "z") ⟨false, 3, 0⟩)] Meta.fresh)
      [] 7 [("a", FsNode.file (FileData.str "z") ⟨false, 3, 0⟩)] Meta.fresh rfl rfl).2.1
      ("a", FsNode.file (FileData.str "z") ⟨false, 3, 0⟩) (by simp) rfl

/-- C7 (amended): a failing stat on a file entry ends the size walk of that
directory at that entry: the result is the partial sum over the entries
before it (entries after it contribute nothing), while failures inside an
earlier subdirectory stay contained in that subdirectory's own partial
sum. -/
theorem calculateDirectorySize_stops_at_first_failure
    (es1 es2 : List (String × FsNode)) (s : String) (d : FileData) (fm mm : Meta)
    (h : ∀ pr ∈ es1, pr.2.isDir = true ∨ pr.2.meta.statOk = true)
    (hfm : fm.statOk = false) :
    calculateDirectorySize (FsNode.dir (es1 ++ (s, FsNode.file d fm) :: es2) mm) =
      calculateDirectorySize (FsNode.dir es1 mm) := by
  simp only [calculateDirectorySize]
  revert h
  induction es1 with
  | nil =>
    intro _
    simp [calculateEntriesSize, hfm]
  | cons pr tl ih =>
    intro h
    obtain ⟨nm, node⟩ := pr
    have hhd := h (nm, node) (List.mem_cons_self _ _)
    have htl : ∀ pr ∈ tl, pr.2.isDir = true ∨ pr.2.meta.statOk = true :=
      fun pr hm => h pr (List.mem_cons_of_mem _ hm)
    cases node with
    | dir es' m' =>
      simp only [List.cons_append, calculateEntriesSize, List.append_eq, ih htl]
    | file d' m' =>
      have hok : m'.statOk = true := by
        rcases hhd with hd | hs
        · exact absurd hd (by simp [FsNode.isDir])
        · exact hs
      simp only [List.cons_append, calculateEntriesSize, List.append_eq, hok, if_true,
        ih htl]

/-- Witness for C7's amended behaviour: with entries `a` (1 byte, stat ok),
`b` (stat fails) and `c` (1 byte, stat ok), the walk returns the partial
sum `1` — the same as walking `a` alone. -/
theorem calculateDirectorySize_stops_at_first_failure_witness :
    calculateDirectorySize
      (FsNode.dir [("a", FsNode.file (FileData.bin [7]) Meta.fresh),
                   ("b", FsNode.file (FileData.bin [9]) ⟨false, 0, 0⟩),
                   ("c", FsNode.file (FileData.bin [5]) Meta.fresh)] Meta.fresh) =
    calculateDirectorySize
      (FsNode.dir [("a", FsNode.file (FileData.bin [7]) Meta.fresh)] Meta.fresh) :=
  calculateDirectorySize_stops_at_first_failure
    [("a", FsNode.file (FileData.bin [7]) Meta.fresh)]
    [("c", FsNode.file (FileData.bin [5]) Meta.fresh)]
    "b" (FileData.bin [9]) ⟨false, 0, 0⟩ Meta.fresh (by decide) rfl

/-- Counterexample for C7 as stated: the claim predicts the skip-and-
continue sum over all successfully statted files (`2` bytes here), but the
source walk stops at the failing entry `b` and returns `1`. -/
theorem calculateDirectorySize_walk_counterexample :
    calculateDirectorySize
      (FsNode.dir [("a", FsNode.file (FileData.bin [7]) Meta.fresh),
                   ("b", FsNode.file (FileData.bin [9]) ⟨false, 0, 0⟩),
                   ("c", FsNode.file (FileData.bin [5]) Meta.fresh)] Meta.fresh) = 1 ∧
    skipAndContinueSize
      (FsNode.dir [("a", FsNode.file (FileData.bin [7]) Meta.fresh),
                   ("b", FsNode.file (FileData.bin [9]) ⟨false, 0, 0⟩),
                   ("c", FsNode.file (FileData.bin [5]) Meta.fresh)] Meta.fresh) = 2 ∧
    calculateDirectorySize
      (FsNode.dir [("a", FsNode.file (FileData.bin [7]) Meta.fresh),
                   ("b", FsNode.file (FileData.bin [9]) ⟨false, 0, 0⟩),
                   ("c", FsNode.file (FileData.bin [5]) Meta.fresh)] Meta.fresh) ≠
    skipAndContinueSize
      (FsNode.dir [("a", FsNode.file (FileData.bin [7]) Meta.fresh),
                   ("b", FsNode.file (FileData.bin [9]) ⟨false, 0, 0⟩),
                   ("c", FsNode.file (FileData.bin [5]) Meta.fresh)] Meta.fresh) :=
  ⟨rfl, rfl, by decide⟩

/-- C2 (amended): with usage `U ≤ C`, an upload of exactly `C - U` bytes
passes the quota check and is committed, and an upload of `C - U + 1` bytes
is rejected before any byte is written, leaving usage at `U` — with
`QuotaExceeded` when `U ≥ 1`; when `U = 0` the per-file size cap (whose
value equals `C`) rejects it as an oversize file instead. -/
theorem upload_quota_boundary (fs : FsNode)
    (hU : calculateDirectorySize fs ≤ MAX_USER_STORAGE) :
    (∀ (p : List String) (d : FileData),
      d.byteLength = MAX_USER_STORAGE - calculateDirectorySize fs →
      (writeFileByPath fs p d).1 = true →
      handleFileUpload fs p d = (UploadResult.ok, (writeFileByPath fs p d).2) ∧
      lookupNode (writeFileByPath fs p d).2 p = some (FsNode.file d Meta.fresh)) ∧
    (∀ (p : List String) (d : FileData),
      d.byteLength = MAX_USER_STORAGE - calculateDirectorySize fs + 1 →
      1 ≤ calculateDirectorySize fs →
      handleFileUpload fs p d = (UploadResult.quotaExceeded, fs)) := by
  have hC : MAX_USER_STORAGE = 10485760 := rfl
  have hS : MAX_SIZE = 10485760 := rfl
  constructor
  · intro p d hlen hw
    have h1 : ¬ (d.byteLength > MAX_SIZE) := by omega
    have h2 : ¬ (calculateDirectorySize fs + d.byteLength > MAX_USER_STORAGE) := by omega
    refine ⟨?_, writeFileByPath_lookup fs p d hw⟩
    simp only [handleFileUpload]
    rw [if_neg h1, if_neg h2]
    simp [hw]
  · intro p d hlen hU1
    have h1 : ¬ (d.byteLength > MAX_SIZE) := by omega
    have h2 : calculateDirectorySize fs + d.byteLength > MAX_USER_STORAGE := by omega
    simp only [handleFileUpload]
    rw [if_neg h1, if_pos h2]

/-- Counterexample for C2 as stated: at usage `U = 0` an upload of
`C - U + 1 = C + 1` bytes is rejected by the per-file size cap, not with
`QuotaExceeded`. -/
theorem upload_quota_boundary_counterexample :
    handleFileUpload (FsNode.dir [] Meta.fresh) ["a.bin"]
      (FileData.bin (List.replicate 10485761 0)) =
      (UploadResult.fileTooLarge, FsNode.dir [] Meta.fresh) := by
  have hgt : (FileData.bin (List.replicate 10485761 0)).byteLength > MAX_SIZE := by
    rw [show (FileData.bin (List.replicate 10485761 0)).byteLength =
      (List.replicate 10485761 (0 : Nat)).length from rfl, List.length_replicate]
    norm_num [MAX_SIZE]
  simp only [handleFileUpload]
  rw [if_pos hgt]

/-- Witness for C2's amended boundary at usage `U = 1`: a `C - 1` byte
upload is committed, a `C` byte upload is rejected with the quota error and
leaves the tree untouched. -/
theorem upload_quota_boundary_witness :
    handleFileUpload
      (FsNode.dir [("z", FsNode.file (FileData.bin [0]) Meta.fresh)] Meta.fresh)
      ["b"] (FileData.bin (List.replicate 10485759 0)) =
    (UploadResult.ok,
      (writeFileByPath
        (FsNode.dir [("z", FsNode.file (FileData.bin [0]) Meta.fresh)] Meta.fresh)
        ["b"] (FileData.bin (List.replicate 10485759 0))).2) ∧
    handleFileUpload
      (FsNode.dir [("z", FsNode.file (FileData.bin [0]) Meta.fresh)] Meta.fresh)
      ["b"] (FileData.bin (List.replicate 10485760 0)) =
    (UploadResult.quotaExceeded,
      FsNode.dir [("z", FsNode.file (FileData.bin [0]) Meta.fresh)] Meta.fresh) := by
  have hu : calculateDirectorySize
      (FsNode.dir [("z", FsNode.file (FileData.bin [0]) Meta.fresh)] Meta.fresh) = 1 := rfl
  have h := upload_quota_boundary
    (FsNode.dir [("z", FsNode.file (FileData.bin [0]) Meta.fresh)] Meta.fresh)
    (by rw [hu]; norm_num [MAX_USER_STORAGE])
  refine ⟨(h.1 ["b"] (FileData.bin (List.replicate 10485759 0)) ?_ rfl).1,
          h.2 ["b"] (FileData.bin (List.replicate 10485760 0)) ?_ ?_⟩
  · rw [hu, show (FileData.bin (List.replicate 10485759 0)).byteLength =
      (List.replicate 10485759 (0 : Nat)).length from rfl, List.length_replicate]
    norm_num [MAX_USER_STORAGE]
  · rw [hu, show (FileData.bin (List.replicate 10485760 0)).byteLength =
      (List.replicate 10485760 (0 : Nat)).length from rfl, List.length_replicate]
    norm_num [MAX_USER_STORAGE]
  · rw [hu]

/-- C3 (amended): the content-update endpoint charges the quota only with
the positive size delta `newSize - originalSize`, so a same-size overwrite
of an existing (stat-able) file never triggers `QuotaExceeded` — even at
100% usage — and a shrinking overwrite always passes the quota check.  (The
upload endpoint, by contrast, charges the full new size even when it
overwrites an existing file; see the counterexample.) -/
theorem update_in_place_delta_quota (fs : FsNode) (path : List String)
    (d0 : FileData) (m : Meta) (content : String)
    (hfile : lookupNode fs path = some (FsNode.file d0 m))
    (hstat : m.statOk = true)
    (hcontent : content ≠ "") :
    (strByteLength content = d0.byteLength →
      (handleUserFileContentPathUpdate fs path content).1 ≠ UpdateResult.quotaExceeded) ∧
    (strByteLength content < d0.byteLength →
      (handleUserFileContentPathUpdate fs path content).1 ≠ UpdateResult.quotaExceeded) := by
  have hdir : isDirectory fs path = false := by
    simp [isDirectory, hfile]
  have hsize : statSizeAt fs path = some d0.byteLength := by
    simp [statSizeAt, hfile, FsNode.meta, hstat, statSize]
  have hmain : ∀ hlt : ¬ (0 < (strByteLength content : Int) - (d0.byteLength : Int)),
      (handleUserFileContentPathUpdate fs path content).1 ≠ UpdateResult.quotaExceeded := by
    intro hlt
    simp only [handleUserFileContentPathUpdate, if_neg hcontent, hdir, Bool.false_eq_true,
      if_false, hsize, Option.getD_some]
    rw [if_neg hlt]
    cases hw : (writeFileByPath fs path (FileData.str content)).1 <;> simp [hw]
  constructor
  · intro heq
    exact hmain (by omega)
  · intro hlt
    exact hmain (by omega)

/-- A tenant whose single file occupies the whole ceiling cannot re-upload
content of the same byte size over it: the upload handler charges the full
new size, so the quota check fires. -/
theorem handleFileUpload_full_overwrite (bs : List Nat) (hblen : bs.length = 10485760) :
    handleFileUpload
      (FsNode.dir [("a.txt", FsNode.file (FileData.bin bs) Meta.fresh)] Meta.fresh)
      ["a.txt"] (FileData.bin bs) =
    (UploadResult.quotaExceeded,
      FsNode.dir [("a.txt", FsNode.file (FileData.bin bs) Meta.fresh)] Meta.fresh) := by
  have husage : calculateDirectorySize
      (FsNode.dir [("a.txt", FsNode.file (FileData.bin bs) Meta.fresh)] Meta.fresh) =
      bs.length := by
    simp only [calculateDirectorySize, calculateEntriesSize, Meta.fresh,
      FileData.byteLength]
    simp
  have h1 : ¬ ((FileData.bin bs).byteLength > MAX_SIZE) := by
    simp only [FileData.byteLength]
    rw [hblen]
    norm_num [MAX_SIZE]
  have h2 : calculateDirectorySize
      (FsNode.dir [("a.txt", FsNode.file (FileData.bin bs) Meta.fresh)] Meta.fresh) +
      (FileData.bin bs).byteLength > MAX_USER_STORAGE := by
    rw [husage]
    simp only [FileData.byteLength]
    rw [hblen]
    norm_num [MAX_USER_STORAGE]
  simp only [handleFileUpload]
  rw [if_neg h1, if_pos h2]

/-- Counterexample for C3 as stated: a tenant at 100% usage overwrites the
existing 10 MiB file `a.txt` through the upload endpoint with content of
exactly the same byte size, and the quota check — which charges the full
new size rather than the delta — rejects it with `QuotaExceeded`. -/
theorem update_in_place_delta_quota_counterexample :
    lookupNode
      (FsNode.dir [("a.txt",
        FsNode.file (FileData.bin (List.replicate 10485760 0)) Meta.fresh)] Meta.fresh)
      ["a.txt"] =
      some (FsNode.file (FileData.bin (List.replicate 10485760 0)) Meta.fresh) ∧
    handleFileUpload
      (FsNode.dir [("a.txt",
        FsNode.file (FileData.bin (List.replicate 10485760 0)) Meta.fresh)] Meta.fresh)
      ["a.txt"] (FileData.bin (List.replicate 10485760 0)) =
    (UploadResult.quotaExceeded,
      FsNode.dir [("a.txt",
        FsNode.file (FileData.bin (List.replicate 10485760 0)) Meta.fresh)] Meta.fresh) :=
  ⟨rfl, handleFileUpload_full_overwrite (List.replicate 10485760 0)
    (List.length_replicate 10485760 0)⟩

/-- Witness for C3: a same-size overwrite (`"cd"` over `"ab"`) and a
shrinking overwrite (`"c"` over `"ab"`) both avoid `QuotaExceeded`. -/
theorem update_in_place_delta_quota_witness :
    (handleUserFileContentPathUpdate
      (FsNode.dir [("a.txt", FsNode.file (FileData.str "ab") Meta.fresh)] Meta.fresh)
      ["a.txt"] "cd").1 ≠ UpdateResult.quotaExceeded ∧
    (handleUserFileContentPathUpdate
      (FsNode.dir [("a.txt", FsNode.file (FileData.str "ab") Meta.fresh)] Meta.fresh)
      ["a.txt"] "c").1 ≠ UpdateResult.quotaExceeded := by
  constructor
  · exact (update_in_place_delta_quota
      (FsNode.dir [("a.txt", FsNode.file (FileData.str "ab") Meta.fresh)] Meta.fresh)
      ["a.txt"] (FileData.str "ab") Meta.fresh "cd" rfl rfl (by decide)).1 rfl
  · exact (update_in_place_delta_quota
      (FsNode.dir [("a.txt", FsNode.file (FileData.str "ab") Meta.fresh)] Meta.fresh)
      ["a.txt"] (FileData.str "ab") Meta.fresh "c" rfl rfl (by decide)).2 (by decide)

/-- C8: for a path with a text (non-image) extension and text content under
the size ceiling, a successful `write` followed by the text read returns
exactly the written content (with its inferred MIME type). -/
theorem write_readText_roundtrip (fs : FsNode) (path : List String) (content : String)
    (hext : strStartsWith (mimeTypeOfExt (extOfPath path)) "image/" = false)
    (hsize : strByteLength content ≤ MAX_USER_STORAGE)
    (hw : (writeFileByPath fs path (FileData.str content)).1 = true) :
    readFileByPath (writeFileByPath fs path (FileData.str content)).2 path =
      some (content, mimeTypeOfExt (extOfPath path)) := by
  have hl := writeFileByPath_lookup fs path (FileData.str content) hw
  simp only [readFileByPath, hext, Bool.false_eq_true, if_false, readFileAt, hl]

/-- Witness for C8: writing `"hello"` to the nested path `x/a.txt` (whose
parent is auto-created) and reading it back returns `"hello"`. -/
theorem write_readText_roundtrip_witness :
    readFileByPath
      (writeFileByPath (FsNode.dir [] Meta.fresh) ["x", "a.txt"]
        (FileData.str "hello")).2 ["x", "a.txt"] =
      some ("hello", "text/plain") := by
  have h := write_readText_roundtrip (FsNode.dir [] Meta.fresh) ["x", "a.txt"] "hello"
    (by decide) (by decide) rfl
  simpa using h
